import Mathlib

/-!
Shallow embedding of the access-gating backend (src/backend-gpt/src/index.ts).

Time is modelled as milliseconds since the Unix epoch (a `Nat`), matching the
numeric value of a JavaScript `Date`.  The persistence layer (Prisma `User`
table) is modelled as a list of `User` rows; `prisma.user.update` raises a
P2025 error when no row matches, which we model with `Except`.
-/

/-- Milliseconds in one day; `endOfDay.setDate(endOfDay.getDate() + 1)` adds
exactly this much in a UTC runtime. -/
def msPerDay : Nat := 86400000

/-- The `User` row as used by index.ts: `id`, `email`, `createdAt`,
`requestCount`, `lastLogin`, and the optional `paidUntil` timestamp. -/
structure User where
  id : String
  email : String
  createdAt : Nat
  requestCount : Nat
  lastLogin : Nat
  paidUntil : Option Nat
deriving Repr, DecidableEq

/-- Outcome of the access decision on line 158 of index.ts. -/
inductive Decision where
  | ALLOW
  | REQUIRE_PAYMENT
deriving Repr, DecidableEq

/-- The truthiness test `user.paidUntil && user.paidUntil > now`:
`null` is falsy, a `Date` object is truthy, and `>` compares epoch values. -/
def paidActive (user : User) (now : Nat) : Bool :=
  match user.paidUntil with
  | some p => now < p
  | none => false

/-- The condition of line 158,
`user.requestCount < 4 || user.paidUntil && user.paidUntil > now`,
as a pure decision function over a user snapshot and the current time. -/
def decideAccess (user : User) (now : Nat) : Decision :=
  if user.requestCount < 4 || paidActive user now then .ALLOW
  else .REQUIRE_PAYMENT

/-- The ledger: the list of `User` rows. -/
def Db := List User

/-- Model of `prisma.user.findUnique(\x7b where: \x7b id \x7d \x7d)`. -/
def findUser (db : List User) (uid : String) : Option User :=
  db.find? (fun u => u.id == uid)

/-- Apply `f` to every row whose `id` matches (a unique-key update). -/
def updateUser (db : List User) (uid : String) (f : User → User) : List User :=
  db.map (fun u => if u.id == uid then f u else u)

/-- Model of `prisma.user.update(\x7b where: \x7b id \x7d, data \x7d)`: raises a P2025
error when no row with that id exists, otherwise rewrites the row. -/
def dbUpdate (db : List User) (uid : String) (f : User → User) :
    Except String (List User) :=
  if db.any (fun u => u.id == uid) then .ok (updateUser db uid f)
  else .error "P2025: record to update not found"

/-- An HTTP response: status code plus the distinguishing part of the body. -/
structure HttpResponse where
  status : Nat
  body : String
deriving Repr, DecidableEq

/-- The `GET /protected` handler (lines 139-188): look the user up, decide,
and on ALLOW atomically increment `requestCount` and set `lastLogin`; on
REQUIRE_PAYMENT create a checkout session (no ledger write) and answer 200
with a payment-required body. -/
def protectedHandler (db : List User) (uid : String) (now : Nat) :
    HttpResponse × List User :=
  match findUser db uid with
  | none => ({ status := 404, body := "User not found" }, db)
  | some user =>
    match decideAccess user now with
    | .ALLOW =>
      ({ status := 200, body := "You are authenticated" },
       updateUser db uid
         (fun u => { u with requestCount := u.requestCount + 1, lastLogin := now }))
    | .REQUIRE_PAYMENT =>
      ({ status := 200, body := "Payment required" }, db)

/-- C1: the access decision is ALLOW iff the user is under the free quota of 4
or has a `paidUntil` strictly in the future; in every other case it is
REQUIRE_PAYMENT, and a user who is both under quota and actively paid is
ALLOW. -/
theorem decideAccess_allow_iff (u : User) (now : Nat) :
    (decideAccess u now = .ALLOW ↔
      u.requestCount < 4 ∨ ∃ p, u.paidUntil = some p ∧ now < p) ∧
    (decideAccess u now = .REQUIRE_PAYMENT ↔
      ¬ (u.requestCount < 4 ∨ ∃ p, u.paidUntil = some p ∧ now < p)) ∧
    (u.requestCount < 4 → (∃ p, u.paidUntil = some p ∧ now < p) →
      decideAccess u now = .ALLOW) := by
  have hpaid : paidActive u now = true ↔ ∃ p, u.paidUntil = some p ∧ now < p := by
    unfold paidActive
    cases hp : u.paidUntil with
    | none => simp
    | some p => simp [decide_eq_true_iff]
  unfold decideAccess
  by_cases h4 : u.requestCount < 4
  · simp [h4]
  · by_cases hp : paidActive u now = true
    · simp [h4, hp, hpaid.mp hp]
    · have : ¬ ∃ p, u.paidUntil = some p ∧ now < p := fun hex => hp (hpaid.mpr hex)
      simp [h4, Bool.not_eq_true] at hp
      simp [h4, hp, this]

/-- Witness for C1 at a concrete under-quota, actively paid user. -/
theorem decideAccess_allow_iff_witness :
    decideAccess
      { id := "u1", email := "a@b", createdAt := 0, requestCount := 2,
        lastLogin := 0, paidUntil := some 10 } 5 = .ALLOW :=
  (decideAccess_allow_iff
    { id := "u1", email := "a@b", createdAt := 0, requestCount := 2,
      lastLogin := 0, paidUntil := some 10 } 5).2.2 (by decide)
    ⟨10, rfl, by decide⟩

/-- A matching-row update rewrites the looked-up row through `f` when `f`
preserves the id. -/
theorem findUser_updateUser (db : List User) (uid : String) (f : User → User)
    (hf : ∀ v, (f v).id = v.id) (u : User) (h : findUser db uid = some u) :
    findUser (updateUser db uid f) uid = some (f u) := by
  unfold findUser updateUser at *
  rw [List.find?_map]
  have hpred : ((fun v => v.id == uid) ∘ fun v => if v.id == uid then f v else v)
      = fun v => v.id == uid := by
    funext v
    by_cases hv : v.id = uid
    · simp [hv, hf]
    · simp [hv]
  rw [hpred, h]
  have hu := List.find?_some h
  simp only [beq_iff_eq] at hu
  simp [hu]

/-- Rows that do not match the updated id are untouched by `updateUser`. -/
theorem findUser_updateUser_ne (db : List User) (uid uid' : String)
    (f : User → User) (hf : ∀ v, (f v).id = v.id) (hne : uid' ≠ uid) :
    findUser (updateUser db uid f) uid' = findUser db uid' := by
  unfold findUser updateUser
  rw [List.find?_map]
  have hpred : ((fun v => v.id == uid') ∘ fun v => if v.id == uid then f v else v)
      = fun v => v.id == uid' := by
    funext v
    by_cases hv : v.id = uid
    · simp [hv, hf]
    · simp [hv]
  rw [hpred]
  cases hfind : List.find? (fun v => v.id == uid') db with
  | none => simp
  | some u =>
    have hu := List.find?_some hfind
    simp only [beq_iff_eq] at hu
    have hne2 : ¬ u.id = uid := fun hc => hne (hu ▸ hc ▸ rfl)
    simp [hne2]

/-- C2: on an ALLOW decision the handler bumps the row to exactly
`requestCount + 1` with `lastLogin = now` and every other field unchanged,
and answers 200; on REQUIRE_PAYMENT the ledger is left entirely unchanged. -/
theorem protected_allow_increments_payment_pure (db : List User) (uid : String)
    (now : Nat) (u : User) (h : findUser db uid = some u) :
    (decideAccess u now = .ALLOW →
      (protectedHandler db uid now).1 = { status := 200, body := "You are authenticated" } ∧
      findUser (protectedHandler db uid now).2 uid =
        some { u with requestCount := u.requestCount + 1, lastLogin := now } ∧
      (∀ uid', uid' ≠ uid →
        findUser (protectedHandler db uid now).2 uid' = findUser db uid')) ∧
    (decideAccess u now = .REQUIRE_PAYMENT →
      (protectedHandler db uid now).1 = { status := 200, body := "Payment required" } ∧
      (protectedHandler db uid now).2 = db) := by
  constructor
  · intro hd
    refine ⟨?_, ?_, ?_⟩
    · simp only [protectedHandler, h, hd]
    · have hmain := findUser_updateUser db uid
        (fun v => { v with requestCount := v.requestCount + 1, lastLogin := now })
        (fun v => rfl) u h
      simp only [protectedHandler, h, hd]
      exact hmain
    · intro uid' hne
      have hother := findUser_updateUser_ne db uid uid'
        (fun v => { v with requestCount := v.requestCount + 1, lastLogin := now })
        (fun v => rfl) hne
      simp only [protectedHandler, h, hd]
      exact hother
  · intro hd
    refine ⟨?_, ?_⟩
    · simp only [protectedHandler, h, hd]
    · simp only [protectedHandler, h, hd]

/-- Witness for C2: one concrete ALLOW request bumps the count 0 to 1 and
stamps `lastLogin`. -/
theorem protected_allow_increments_payment_pure_witness :
    findUser
      (protectedHandler
        [{ id := "u1", email := "a@b", createdAt := 0, requestCount := 0,
           lastLogin := 0, paidUntil := none }] "u1" 7).2 "u1" =
      some { id := "u1", email := "a@b", createdAt := 0, requestCount := 1,
             lastLogin := 7, paidUntil := none } :=
  (((protected_allow_increments_payment_pure
      [{ id := "u1", email := "a@b", createdAt := 0, requestCount := 0,
         lastLogin := 0, paidUntil := none }] "u1" 7
      { id := "u1", email := "a@b", createdAt := 0, requestCount := 0,
        lastLogin := 0, paidUntil := none } (by decide)).1 (by decide)).2).1

/-- A Stripe event as far as the handler inspects it: its `type` and the
checkout session `client_reference_id` (which may be absent). -/
structure StripeEvent where
  type : String
  clientReferenceId : Option String
deriving Repr, DecidableEq

/-- The signature scheme of `Stripe.webhooks.constructEventAsync`: the header
must equal the MAC of the raw body under the endpoint secret.  The MAC is
modelled as an injective tag of secret and body, so that any change to the
body or the header breaks verification. -/
def stripeMac (secret rawBody : String) : String :=
  secret ++ "#" ++ rawBody

/-- Model of `Stripe.webhooks.constructEventAsync(rawBody, sig, secret)` (line 86):
raises when the header is missing (the code reads it with a non-null
assertion only) or does not verify, otherwise parses the raw body into the
event.  The JSON parsing itself is an external concern and is a parameter. -/
def constructEvent (parse : String → StripeEvent) (rawBody : String)
    (sig : Option String) (secret : String) : Except String StripeEvent :=
  match sig with
  | none => .error "Unable to extract timestamp and signatures from header"
  | some s =>
    if s = stripeMac secret rawBody then .ok (parse rawBody)
    else .error "No signatures found matching the expected signature for payload"

/-- The 400 answer of the catch block on line 89. -/
def sigFailResponse : HttpResponse :=
  { status := 400, body := "Webhook signature verification failed." }

/-- The framework default answer for an error that no handler catches. -/
def internalErrorResponse : HttpResponse :=
  { status := 500, body := "Internal Server Error" }

/-- The acknowledgment of line 115. -/
def receivedResponse : HttpResponse :=
  { status := 200, body := "received: true" }

/-- Lines 102-103: `endOfDay` is `new Date()` moved forward one calendar day
with the time of day kept, i.e. now plus one day in a UTC runtime. -/
def endOfDay (now : Nat) : Nat := now + msPerDay

/-- The body of the webhook handler after verification (lines 93-115): on a
completed checkout, update the referenced user row to `paidUntil = endOfDay`.
The `session.client_reference_id!` assertion and the `prisma.user.update`
P2025 error are not caught anywhere, so those paths surface as the framework
default 500 answer with no ledger change. -/
def webhookCore (db : List User) (ev : StripeEvent) (now : Nat) :
    HttpResponse × List User :=
  if ev.type = "checkout.session.completed" then
    match ev.clientReferenceId with
    | none => (internalErrorResponse, db)
    | some uid =>
      match dbUpdate db uid (fun u => { u with paidUntil := some (endOfDay now) }) with
      | .ok db2 => (receivedResponse, db2)
      | .error _ => (internalErrorResponse, db)
  else (receivedResponse, db)

/-- The `POST /webhook` handler (lines 79-116): verify first, answering 400 on
any verification failure with no ledger access, then handle the event. -/
def webhookHandler (parse : String → StripeEvent) (db : List User)
    (rawBody : String) (sig : Option String) (secret : String) (now : Nat) :
    HttpResponse × List User :=
  match constructEvent parse rawBody sig secret with
  | .error _ => (sigFailResponse, db)
  | .ok ev => webhookCore db ev now

/-- C10: a webhook request with no stripe-signature header at all is answered
with the 400 signature-failure response and the ledger is untouched; the
missing header lands in the verification catch, never in an unhandled error
or an acknowledgment. -/
theorem webhook_missing_header_rejected (parse : String → StripeEvent)
    (db : List User) (rawBody secret : String) (now : Nat) :
    webhookHandler parse db rawBody none secret now = (sigFailResponse, db) := rfl

/-- The MAC determines the body: same secret and same tag force same body. -/
theorem stripeMac_inj (secret a b : String) (h : stripeMac secret a = stripeMac secret b) :
    a = b := by
  unfold stripeMac at h
  have hd := congrArg String.data h
  simp only [String.data_append, List.append_assoc] at hd
  exact String.ext (List.append_cancel_left (List.append_cancel_left hd))

/-- C7: a webhook whose signature fails verification is answered 400 with no
ledger mutation, and flipping either the payload or the signature of a
genuinely signed pair makes verification fail. -/
theorem webhook_bad_signature_rejected (parse : String → StripeEvent)
    (db : List User) (rawBody secret : String) (sig : Option String) (now : Nat) :
    (sig ≠ some (stripeMac secret rawBody) →
      webhookHandler parse db rawBody sig secret now = (sigFailResponse, db)) ∧
    (∀ rawBody2, rawBody2 ≠ rawBody →
      webhookHandler parse db rawBody2 (some (stripeMac secret rawBody)) secret now
        = (sigFailResponse, db)) ∧
    (∀ sig2, sig2 ≠ stripeMac secret rawBody →
      webhookHandler parse db rawBody (some sig2) secret now = (sigFailResponse, db)) := by
  refine ⟨?_, ?_, ?_⟩
  · intro hne
    cases sig with
    | none => rfl
    | some s =>
      have hs : ¬ s = stripeMac secret rawBody := fun hc => hne (by rw [hc])
      simp [webhookHandler, constructEvent, hs]
  · intro rawBody2 hne
    have hs : ¬ stripeMac secret rawBody = stripeMac secret rawBody2 :=
      fun hc => hne (stripeMac_inj secret rawBody2 rawBody hc.symm)
    simp [webhookHandler, constructEvent, hs]
  · intro sig2 hne
    simp [webhookHandler, constructEvent, hne]

/-- Witness for C7 at a concrete wrong signature. -/
theorem webhook_bad_signature_rejected_witness :
    webhookHandler (fun _ => { type := "x", clientReferenceId := none })
      [] "body" (some "bad") "sec" 0 = (sigFailResponse, []) :=
  (webhook_bad_signature_rejected (fun _ => { type := "x", clientReferenceId := none })
    [] "body" "sec" (some "bad") 0).1 (by decide)

/-- C4 evaluated at its failing input: a correctly signed completed-checkout
event whose client reference names a user absent from the ledger makes
`prisma.user.update` raise P2025; no try/catch around the event handling
captures it, so the framework answers its default 500, not the 200
acknowledgment the handler contract promises, though the ledger stays
unchanged. -/
theorem webhook_missing_user_yields_500 :
    webhookHandler
      (fun _ => { type := "checkout.session.completed", clientReferenceId := some "u1" })
      [] "payload" (some (stripeMac "whsec" "payload")) "whsec" 0
      = (internalErrorResponse, []) := by decide

/-- Modelled from the spec wording of C5 only, for comparison with the code:
the start (midnight) of the next calendar day after `now`, in ms since the
epoch. -/
def startOfNextCalendarDay (now : Nat) : Nat := (now / msPerDay + 1) * msPerDay

/-- C5 as stated is false at one millisecond past midnight: the handler sets
`paidUntil` to 86400001 (now plus one full day, keeping the time of day),
while the start of the next calendar day is 86400000. -/
theorem webhook_paidUntil_not_day_start :
    (findUser
      (webhookHandler
        (fun _ => { type := "checkout.session.completed", clientReferenceId := some "u1" })
        [{ id := "u1", email := "a@b", createdAt := 0, requestCount := 0,
           lastLogin := 0, paidUntil := none }]
        "payload" (some (stripeMac "whsec" "payload")) "whsec" 1).2 "u1").map User.paidUntil
      = some (some 86400001) ∧
    startOfNextCalendarDay 1 = 86400000 ∧ (86400001 : Nat) ≠ 86400000 := by
  refine ⟨by decide, by decide, by decide⟩

/-- A row found under `findUser` makes the `any` guard of `dbUpdate` true. -/
theorem any_of_findUser (db : List User) (uid : String) (u : User)
    (hu : findUser db uid = some u) : (db.any fun v => v.id == uid) = true := by
  have hu2 : List.find? (fun v => v.id == uid) db = some u := hu
  have hpu := List.find?_some hu2
  exact List.any_eq_true.mpr ⟨u, List.mem_of_find?_eq_some hu2, hpu⟩

/-- A matching signature header makes `constructEvent` parse the body. -/
theorem constructEvent_ok (parse : String → StripeEvent) (rawBody secret : String) :
    constructEvent parse rawBody (some (stripeMac secret rawBody)) secret
      = .ok (parse rawBody) := by
  simp [constructEvent]

/-- A verified webhook request runs the event-handling body on the parsed
event. -/
theorem webhookHandler_verified (parse : String → StripeEvent) (db : List User)
    (rawBody secret : String) (now : Nat) :
    webhookHandler parse db rawBody (some (stripeMac secret rawBody)) secret now
      = webhookCore db (parse rawBody) now := by
  unfold webhookHandler
  rw [constructEvent_ok]

/-- On a completed checkout referencing an existing user, the event body
acknowledges and rewrites that row to `paidUntil = endOfDay`. -/
theorem webhookCore_completed (db : List User) (uid : String) (now : Nat)
    (u : User) (hu : findUser db uid = some u) :
    webhookCore db { type := "checkout.session.completed", clientReferenceId := some uid } now
      = (receivedResponse,
         updateUser db uid (fun v => { v with paidUntil := some (endOfDay now) })) := by
  have hany := any_of_findUser db uid u hu
  simp [webhookCore, dbUpdate, hany]

/-- C5 amended: a verified completed-checkout event for an existing user is
acknowledged with 200 and sets that user's `paidUntil` to exactly `now` plus
one day, the same time of day on the next calendar day. -/
theorem webhook_sets_paidUntil_now_plus_day (parse : String → StripeEvent)
    (db : List User) (rawBody secret uid : String) (now : Nat) (u : User)
    (hparse : parse rawBody =
      { type := "checkout.session.completed", clientReferenceId := some uid })
    (hu : findUser db uid = some u) :
    (webhookHandler parse db rawBody (some (stripeMac secret rawBody)) secret now).1
      = receivedResponse ∧
    findUser (webhookHandler parse db rawBody (some (stripeMac secret rawBody)) secret now).2 uid
      = some { u with paidUntil := some (now + msPerDay) } := by
  rw [webhookHandler_verified, hparse, webhookCore_completed db uid now u hu]
  exact ⟨rfl,
    findUser_updateUser db uid (fun v => { v with paidUntil := some (endOfDay now) })
      (fun v => rfl) u hu⟩

/-- Witness for the amended C5 at a concrete user and time. -/
theorem webhook_sets_paidUntil_now_plus_day_witness :
    findUser
      (webhookHandler
        (fun _ => { type := "checkout.session.completed", clientReferenceId := some "u1" })
        [{ id := "u1", email := "a@b", createdAt := 0, requestCount := 9,
           lastLogin := 0, paidUntil := some 5 }]
        "payload" (some (stripeMac "whsec" "payload")) "whsec" 100).2 "u1"
      = some { id := "u1", email := "a@b", createdAt := 0, requestCount := 9,
               lastLogin := 0, paidUntil := some (100 + msPerDay) } :=
  (webhook_sets_paidUntil_now_plus_day
    (fun _ => { type := "checkout.session.completed", clientReferenceId := some "u1" })
    [{ id := "u1", email := "a@b", createdAt := 0, requestCount := 9,
       lastLogin := 0, paidUntil := some 5 }]
    "payload" "whsec" "u1" 100
    { id := "u1", email := "a@b", createdAt := 0, requestCount := 9,
      lastLogin := 0, paidUntil := some 5 } rfl (by decide)).2

/-- C9 as stated is false: a user already at the quota of 4 who is allowed
solely through an active `paidUntil` still has `requestCount` incremented, to
5, by the ALLOW path. -/
theorem paid_allow_still_increments :
    decideAccess
      { id := "u1", email := "a@b", createdAt := 0, requestCount := 4,
        lastLogin := 0, paidUntil := some 100 } 10 = .ALLOW ∧
    (findUser
      (protectedHandler
        [{ id := "u1", email := "a@b", createdAt := 0, requestCount := 4,
           lastLogin := 0, paidUntil := some 100 }] "u1" 10).2 "u1").map User.requestCount
      = some 5 ∧ (5 : Nat) ≠ 4 := by
  refine ⟨by decide, by decide, by decide⟩

/-- C9 amended: `requestCount` counts every allowed request, not only
free-tier ones: a request allowed solely because `paidUntil` is active (the
count already at or above 4) still increments the count by exactly 1. -/
theorem paid_allow_increments_by_one (db : List User) (uid : String)
    (now : Nat) (u : User) (h : findUser db uid = some u)
    (_hq : 4 ≤ u.requestCount) (hp : paidActive u now = true) :
    findUser (protectedHandler db uid now).2 uid =
      some { u with requestCount := u.requestCount + 1, lastLogin := now } := by
  have hd : decideAccess u now = .ALLOW := by
    unfold decideAccess
    simp [hp]
  have hupd := findUser_updateUser db uid
    (fun v => { v with requestCount := v.requestCount + 1, lastLogin := now })
    (fun v => rfl) u h
  simp only [protectedHandler, h, hd]
  exact hupd

/-- Witness for the amended C9: a paid user at count 4 moves to count 5. -/
theorem paid_allow_increments_by_one_witness :
    findUser
      (protectedHandler
        [{ id := "u1", email := "a@b", createdAt := 0, requestCount := 4,
           lastLogin := 0, paidUntil := some 100 }] "u1" 10).2 "u1"
      = some { id := "u1", email := "a@b", createdAt := 0, requestCount := 5,
               lastLogin := 10, paidUntil := some 100 } :=
  paid_allow_increments_by_one
    [{ id := "u1", email := "a@b", createdAt := 0, requestCount := 4,
       lastLogin := 0, paidUntil := some 100 }] "u1" 10
    { id := "u1", email := "a@b", createdAt := 0, requestCount := 4,
      lastLogin := 0, paidUntil := some 100 } (by decide) (by decide) (by decide)

/-- A session token as the middleware sees it after cookie extraction: the
payload either carries a userId claim or not (the code casts the payload with
`as \x7b userId: string \x7d` and never checks its shape), plus the JWT
signature over that payload. -/
structure Jwt where
  userIdClaim : Option String
  signature : String
deriving Repr, DecidableEq

/-- The `hono/jwt` signing MAC over the payload, modelled as an injective tag
of the secret and the claim. -/
def jwtMac (secret : String) (claim : Option String) : String :=
  match claim with
  | none => secret ++ ".null"
  | some s => secret ++ ".uid:" ++ s

/-- Model of `verify(token, JWT_SECRET)` (line 131): raises when the signature does
not verify against the payload, otherwise returns the payload as is; the
handler only casts the result, so no userId presence check happens. -/
def jwtVerify (secret : String) (t : Jwt) : Except String (Option String) :=
  if t.signature = jwtMac secret t.userIdClaim then .ok t.userIdClaim
  else .error "JwtTokenInvalid"

/-- Outcome of the auth middleware (lines 118-137). -/
inductive AuthResult where
  | unauthenticated
  | invalidToken
  | proceed (userId : Option String)
deriving Repr, DecidableEq

/-- The auth middleware: a missing (or unreadable) cookie is the 401
not-authenticated answer; a token whose signature fails is the 401
invalid-token answer; otherwise the payload userId field, present or not, is
injected into the request context and the request proceeds. -/
def authMiddleware (secret : String) (cookie : Option Jwt) : AuthResult :=
  match cookie with
  | none => .unauthenticated
  | some t =>
    match jwtVerify secret t with
    | .ok claim => .proceed claim
    | .error _ => .invalidToken

/-- C6 as stated is false: a token correctly signed under the secret whose
payload carries no user identifier is not answered 401; the middleware
injects an absent userId and lets the request reach the protected handler. -/
theorem wellsigned_empty_payload_proceeds :
    authMiddleware "sec" (some { userIdClaim := none, signature := jwtMac "sec" none })
      = .proceed none ∧
    authMiddleware "sec" (some { userIdClaim := none, signature := jwtMac "sec" none })
      ≠ .invalidToken := by
  refine ⟨by decide, by decide⟩

/-- C6 amended: the middleware answers 401 invalid-token exactly when the
token signature does not verify over its payload; when it verifies, the
userId claim the payload carries, possibly absent, is injected and the
request proceeds; a missing cookie is the separate not-authenticated 401. -/
theorem authMiddleware_cases (secret : String) (t : Jwt) :
    (t.signature ≠ jwtMac secret t.userIdClaim →
      authMiddleware secret (some t) = .invalidToken) ∧
    (t.signature = jwtMac secret t.userIdClaim →
      authMiddleware secret (some t) = .proceed t.userIdClaim) ∧
    authMiddleware secret none = .unauthenticated := by
  refine ⟨?_, ?_, rfl⟩
  · intro hne
    simp [authMiddleware, jwtVerify, hne]
  · intro heq
    simp [authMiddleware, jwtVerify, heq]

/-- Witness for the amended C6 at a concrete tampered signature. -/
theorem authMiddleware_cases_witness :
    authMiddleware "sec" (some { userIdClaim := some "u1", signature := "bad" })
      = .invalidToken :=
  (authMiddleware_cases "sec" { userIdClaim := some "u1", signature := "bad" }).1
    (by decide)

/-- Ledger effect of `GET /oauth/callback` (lines 57-62): look the user up by
unique email and lazily create the row with `requestCount = 0` and no
`paidUntil` when absent.  `newId` stands for the key the store generates;
creation against a colliding key would raise inside the try/catch and leave
the ledger unchanged.  `now` is the creation timestamp. -/
def oauthCallbackDb (db : List User) (email newId : String) (now : Nat) :
    List User :=
  match db.find? (fun u => u.email == email) with
  | some _ => db
  | none =>
    if db.any (fun u => u.id == newId) then db
    else db ++ [{ id := newId, email := email, createdAt := now,
                  requestCount := 0, lastLogin := now, paidUntil := none }]

/-- One operation of the system, carrying everything that can reach the
ledger. -/
inductive Op where
  | oauth (email newId : String)
  | protectedReq (uid : String)
  | webhook (parse : String → StripeEvent) (rawBody : String)
      (sig : Option String) (secret : String)

/-- The ledger effect of one operation arriving at time `t`. -/
def stepDb (db : List User) (op : Op) (t : Nat) : List User :=
  match op with
  | .oauth email newId => oauthCallbackDb db email newId t
  | .protectedReq uid => (protectedHandler db uid t).2
  | .webhook parse rawBody sig secret =>
      (webhookHandler parse db rawBody sig secret t).2

/-- Run a timed sequence of operations over the ledger. -/
def runDb (db : List User) (tr : List (Nat × Op)) : List User :=
  match tr with
  | [] => db
  | (t, op) :: rest => runDb (stepDb db op t) rest

/-- The protected handler either leaves the ledger alone or applies the
count-and-login bump to the requested id. -/
theorem protectedHandler_db_cases (db : List User) (uid : String) (now : Nat) :
    (protectedHandler db uid now).2 = db ∨
    (protectedHandler db uid now).2 = updateUser db uid
      (fun v => { v with requestCount := v.requestCount + 1, lastLogin := now }) := by
  unfold protectedHandler
  cases findUser db uid with
  | none => exact Or.inl rfl
  | some u =>
    cases hd : decideAccess u now with
    | ALLOW =>
      right
      simp [hd]
    | REQUIRE_PAYMENT =>
      left
      simp [hd]

/-- The event-handling body either leaves the ledger alone or applies the
paidUntil rewrite to some id. -/
theorem webhookCore_db_cases (db : List User) (ev : StripeEvent) (now : Nat) :
    (webhookCore db ev now).2 = db ∨
    ∃ uid, (webhookCore db ev now).2 = updateUser db uid
      (fun v => { v with paidUntil := some (endOfDay now) }) := by
  unfold webhookCore
  by_cases hty : ev.type = "checkout.session.completed"
  · rw [if_pos hty]
    cases ev.clientReferenceId with
    | none => exact Or.inl rfl
    | some uid =>
      by_cases hany : (db.any fun v => v.id == uid) = true
      · right
        exact ⟨uid, by simp [dbUpdate, hany]⟩
      · left
        simp [dbUpdate, hany]
  · rw [if_neg hty]
    exact Or.inl rfl

/-- The webhook handler either leaves the ledger alone or applies the
paidUntil rewrite to some id. -/
theorem webhookHandler_db_cases (parse : String → StripeEvent) (db : List User)
    (rawBody : String) (sig : Option String) (secret : String) (now : Nat) :
    (webhookHandler parse db rawBody sig secret now).2 = db ∨
    ∃ uid, (webhookHandler parse db rawBody sig secret now).2 = updateUser db uid
      (fun v => { v with paidUntil := some (endOfDay now) }) := by
  unfold webhookHandler
  cases constructEvent parse rawBody sig secret with
  | error e => exact Or.inl rfl
  | ok ev => exact webhookCore_db_cases db ev now

/-- Every row of an updated ledger is an old row, possibly rewritten. -/
theorem mem_updateUser (db : List User) (uid : String) (f : User → User)
    (v : User) (hv : v ∈ updateUser db uid f) :
    ∃ w ∈ db, v = f w ∨ v = w := by
  unfold updateUser at hv
  rcases List.mem_map.mp hv with ⟨w, hw, heq⟩
  refine ⟨w, hw, ?_⟩
  by_cases h : w.id = uid
  · left
    rw [← heq]
    simp [h]
  · right
    rw [← heq]
    simp [h]

/-- A row found by id is a member of the ledger. -/
theorem mem_of_findUser (db : List User) (uid : String) (u : User)
    (h : findUser db uid = some u) : u ∈ db := by
  have h2 : List.find? (fun v => v.id == uid) db = some u := h
  exact List.mem_of_find?_eq_some h2

/-- One step never deletes a row, never lowers its request count, and either
keeps its `paidUntil` or sets it to the step time plus one day. -/
theorem stepDb_evolve (db : List User) (op : Op) (t : Nat) (uid : String)
    (u : User) (hu : findUser db uid = some u) :
    ∃ u', findUser (stepDb db op t) uid = some u' ∧
      u.requestCount ≤ u'.requestCount ∧
      (u'.paidUntil = u.paidUntil ∨ u'.paidUntil = some (t + msPerDay)) := by
  cases op with
  | oauth email newId =>
    simp only [stepDb]
    unfold oauthCallbackDb
    cases db.find? (fun v => v.email == email) with
    | some w => exact ⟨u, hu, le_refl _, Or.inl rfl⟩
    | none =>
      by_cases hid : (db.any fun v => v.id == newId) = true
      · rw [if_pos hid]
        exact ⟨u, hu, le_refl _, Or.inl rfl⟩
      · rw [if_neg hid]
        refine ⟨u, ?_, le_refl _, Or.inl rfl⟩
        have h2 : List.find? (fun v => v.id == uid) db = some u := hu
        show List.find? (fun v => v.id == uid) (db ++ [_]) = some u
        rw [List.find?_append, h2]
        rfl
  | protectedReq uid2 =>
    simp only [stepDb]
    rcases protectedHandler_db_cases db uid2 t with hc | hc
    · rw [hc]
      exact ⟨u, hu, le_refl _, Or.inl rfl⟩
    · rw [hc]
      by_cases heq : uid = uid2
      · subst heq
        exact ⟨_, findUser_updateUser db uid
          (fun v => { v with requestCount := v.requestCount + 1, lastLogin := t })
          (fun v => rfl) u hu, Nat.le_succ _, Or.inl rfl⟩
      · rw [findUser_updateUser_ne db uid2 uid
          (fun v => { v with requestCount := v.requestCount + 1, lastLogin := t })
          (fun v => rfl) heq, hu]
        exact ⟨u, rfl, le_refl _, Or.inl rfl⟩
  | webhook parse rawBody sig secret =>
    simp only [stepDb]
    rcases webhookHandler_db_cases parse db rawBody sig secret t with hc | ⟨uid2, hc⟩
    · rw [hc]
      exact ⟨u, hu, le_refl _, Or.inl rfl⟩
    · rw [hc]
      by_cases heq : uid = uid2
      · subst heq
        exact ⟨_, findUser_updateUser db uid
          (fun v => { v with paidUntil := some (endOfDay t) })
          (fun v => rfl) u hu, le_refl _, Or.inr rfl⟩
      · rw [findUser_updateUser_ne db uid2 uid
          (fun v => { v with paidUntil := some (endOfDay t) })
          (fun v => rfl) heq, hu]
        exact ⟨u, rfl, le_refl _, Or.inl rfl⟩

/-- Every `paidUntil` in the ledger is at most `T` plus one day. -/
def PaidBound (db : List User) (T : Nat) : Prop :=
  ∀ u ∈ db, ∀ p, u.paidUntil = some p → p ≤ T + msPerDay

/-- A step at a time no later than `T` preserves the bound: the only write to
`paidUntil` sets it to the step time plus one day. -/
theorem stepDb_paidBound (db : List User) (op : Op) (t T : Nat)
    (hb : PaidBound db T) (ht : t ≤ T) : PaidBound (stepDb db op t) T := by
  intro v hv p hp
  cases op with
  | oauth email newId =>
    simp only [stepDb] at hv
    unfold oauthCallbackDb at hv
    cases hfe : db.find? (fun w => w.email == email) with
    | some w =>
      rw [hfe] at hv
      exact hb v hv p hp
    | none =>
      rw [hfe] at hv
      by_cases hid : (db.any fun w => w.id == newId) = true
      · rw [if_pos hid] at hv
        exact hb v hv p hp
      · rw [if_neg hid] at hv
        rcases List.mem_append.mp hv with hin | hnew
        · exact hb v hin p hp
        · rcases List.mem_singleton.mp hnew with rfl
          simp at hp
  | protectedReq uid2 =>
    simp only [stepDb] at hv
    rcases protectedHandler_db_cases db uid2 t with hc | hc
    · rw [hc] at hv
      exact hb v hv p hp
    · rw [hc] at hv
      rcases mem_updateUser db uid2 _ v hv with ⟨w, hw, heq | heq⟩
      · rw [heq] at hp
        exact hb w hw p hp
      · rw [heq] at hp
        exact hb w hw p hp
  | webhook parse rawBody sig secret =>
    simp only [stepDb] at hv
    rcases webhookHandler_db_cases parse db rawBody sig secret t with hc | ⟨uid2, hc⟩
    · rw [hc] at hv
      exact hb v hv p hp
    · rw [hc] at hv
      rcases mem_updateUser db uid2 _ v hv with ⟨w, hw, heq | heq⟩
      · rw [heq] at hp
        have hp2 : endOfDay t = p := by simpa using hp
        rw [← hp2]
        unfold endOfDay msPerDay
        omega
      · rw [heq] at hp
        exact hb w hw p hp

/-- Running operations all timestamped no later than `T` preserves the
bound. -/
theorem runDb_paidBound (tr : List (Nat × Op)) (db : List User) (T : Nat)
    (hb : PaidBound db T) (ht : ∀ q ∈ tr, q.1 ≤ T) :
    PaidBound (runDb db tr) T := by
  induction tr generalizing db with
  | nil => exact hb
  | cons hd tl ih =>
    obtain ⟨t, op⟩ := hd
    simp only [runDb]
    refine ih (stepDb db op t) (stepDb_paidBound db op t T hb ?_) ?_
    · exact ht (t, op) (List.mem_cons_self _ _)
    · intro q hq
      exact ht q (List.mem_cons_of_mem _ hq)

/-- The request counter of any surviving row never decreases along a run. -/
theorem runDb_count_mono (tr : List (Nat × Op)) (db : List User) (uid : String)
    (u : User) (hu : findUser db uid = some u) :
    ∃ u', findUser (runDb db tr) uid = some u' ∧
      u.requestCount ≤ u'.requestCount := by
  induction tr generalizing db u with
  | nil => exact ⟨u, hu, le_refl _⟩
  | cons hd tl ih =>
    obtain ⟨t, op⟩ := hd
    simp only [runDb]
    rcases stepDb_evolve db op t uid u hu with ⟨v, hv, hc, _⟩
    rcases ih (stepDb db op t) v hv with ⟨u', hu', hc'⟩
    exact ⟨u', hu', le_trans hc hc'⟩

/-- C8: no operation ever decrements or resets the request counter, so once a
user has reached the free quota of 4, after any further sequence of
operations every request without an active `paidUntil` still decides
REQUIRE_PAYMENT. -/
theorem quota_exceeded_forever (db : List User) (tr : List (Nat × Op))
    (uid : String) (u u' : User)
    (hu : findUser db uid = some u)
    (hu' : findUser (runDb db tr) uid = some u') :
    u.requestCount ≤ u'.requestCount ∧
    (4 ≤ u.requestCount → ∀ now, paidActive u' now = false →
      decideAccess u' now = .REQUIRE_PAYMENT) := by
  rcases runDb_count_mono tr db uid u hu with ⟨v, hv, hc⟩
  rw [hu'] at hv
  injection hv with hv
  subst hv
  refine ⟨hc, ?_⟩
  intro h4 now hpa
  have hnlt : ¬ u'.requestCount < 4 := Nat.not_lt.mpr (le_trans h4 hc)
  unfold decideAccess
  simp [hnlt, hpa]

/-- Witness for C8: a user at count 4 with no paidUntil, after a further
request, still decides REQUIRE_PAYMENT. -/
theorem quota_exceeded_forever_witness :
    decideAccess
      { id := "u1", email := "a@b", createdAt := 0, requestCount := 4,
        lastLogin := 0, paidUntil := none } 10 = .REQUIRE_PAYMENT :=
  (quota_exceeded_forever
    [{ id := "u1", email := "a@b", createdAt := 0, requestCount := 4,
       lastLogin := 0, paidUntil := none }]
    [(3, Op.protectedReq "u1")] "u1"
    { id := "u1", email := "a@b", createdAt := 0, requestCount := 4,
      lastLogin := 0, paidUntil := none }
    { id := "u1", email := "a@b", createdAt := 0, requestCount := 4,
      lastLogin := 0, paidUntil := none }
    (by decide) (by decide)).2 (by decide) 10 (by decide)

/-- C3: from the empty ledger, after any sequence of operations all
timestamped no later than `T`, one further operation at time `T`, a replayed
payment webhook included, never moves an existing user `paidUntil` backward:
it is left unchanged or set to a later or equal instant. -/
theorem paidUntil_never_regresses (tr : List (Nat × Op)) (T : Nat) (op : Op)
    (uid : String) (u u' : User) (p : Nat)
    (htr : ∀ q ∈ tr, q.1 ≤ T)
    (hu : findUser (runDb [] tr) uid = some u)
    (hu' : findUser (stepDb (runDb [] tr) op T) uid = some u')
    (hp : u.paidUntil = some p) :
    ∃ p', u'.paidUntil = some p' ∧ p ≤ p' := by
  have hbound : PaidBound (runDb [] tr) T :=
    runDb_paidBound tr [] T (fun v hv => absurd hv (List.not_mem_nil v)) htr
  rcases stepDb_evolve (runDb [] tr) op T uid u hu with ⟨v, hv, _, hpd⟩
  rw [hu'] at hv
  injection hv with hv
  subst hv
  rcases hpd with hsame | hset
  · exact ⟨p, hsame.trans hp, le_refl p⟩
  · exact ⟨T + msPerDay, hset, hbound u (mem_of_findUser _ uid u hu) p hp⟩

/-- Concrete parse result for the C3 witness run. -/
def exParse : String → StripeEvent :=
  fun _ => { type := "checkout.session.completed", clientReferenceId := some "u1" }

/-- A verified completed-checkout webhook operation for the C3 witness. -/
def exWebhookOp : Op := .webhook exParse "body" (some (stripeMac "sec" "body")) "sec"

/-- C3 witness trace: sign the user up at time 0, complete a payment at
time 5. -/
def exTrace : List (Nat × Op) := [(0, .oauth "a@b" "u1"), (5, exWebhookOp)]

/-- Witness for C3: replaying the webhook at time 7 moves paidUntil from
86400005 to 86400007, never backward. -/
theorem paidUntil_never_regresses_witness :
    ∃ p', ({ id := "u1", email := "a@b", createdAt := 0, requestCount := 0,
             lastLogin := 0, paidUntil := some 86400007 } : User).paidUntil
        = some p' ∧ 86400005 ≤ p' :=
  paidUntil_never_regresses exTrace 7 exWebhookOp "u1"
    { id := "u1", email := "a@b", createdAt := 0, requestCount := 0,
      lastLogin := 0, paidUntil := some 86400005 }
    { id := "u1", email := "a@b", createdAt := 0, requestCount := 0,
      lastLogin := 0, paidUntil := some 86400007 }
    86400005
    (by
      intro q hq
      rcases List.mem_cons.mp hq with rfl | hq2
      · decide
      · rcases List.mem_cons.mp hq2 with rfl | hq3
        · decide
        · exact absurd hq3 (List.not_mem_nil q))
    (by decide) (by decide) rfl
